import Mathlib

/-!
Verification of the `reorder_editable` manifest tool.

The repository ships a CLI (`reorder_editable/__main__.py`, present in full)
around a core manifest module (`reorder_editable/core.py`, whose `Editable`
class is referenced by the CLI but whose source is not included here); the
core's data model and operations are therefore modelled from the
specification's words, while the CLI layer is embedded from
`__main__.py` directly.

A manifest is an ordered sequence of raw lines.  The operations of interest:
`assert_ordered` (order verification), `reorder` (rewrite), `load`/`render`
(round-trip parsing), the locator, and the two CLI commands `check` and
`reorder` together with the path validation helper `absdirs`.
-/

namespace ReorderEditable

/-- Modelled from the spec: the error kinds of `ReorderEditableError`
(section 7): `NotFound` (carrying the missing path), `OutOfOrder`
(carrying the violating pair), `ReadError` and `WriteError`. -/
inductive Err where
  | notFound (dir : String)
  | outOfOrder (a b : String)
  | readError
  | writeError
deriving DecidableEq, Repr

/-- Modelled from the spec: user-facing rendering of an error value (the CLI
prints `str(exc)`; the exact wording is unspecified, only that it carries the
offending path or pair). -/
def errMsg : Err → String
  | .notFound d => d ++ " not found"
  | .outOfOrder a b => a ++ " appears before " ++ b
  | .readError => "read failed"
  | .writeError => "write failed"

/-- Modelled from the spec (section 4.3 step 1): find the line index of a
requested directory in the manifest's current line sequence; the first
matching line's index, `none` when no line matches. -/
def firstIndex (d : String) : List String → Option Nat
  | [] => none
  | l :: rest => if l = d then some 0 else (firstIndex d rest).map (· + 1)

/-- Modelled from the spec (section 4.3 step 1): resolve the line index of
each requested directory, scanning the DirectorySet in caller order, failing
with `NotFound` at the first missing directory. -/
def resolveIndices (lines : List String) : List String → Except Err (List Nat)
  | [] => .ok []
  | d :: ds =>
    match firstIndex d lines with
    | none => .error (.notFound d)
    | some i => (resolveIndices lines ds).map (fun is => i :: is)

/-- Modelled from the spec (section 4.3 steps 2-3): scan the directories
paired with their resolved indices left to right and return the first
adjacent pair whose indices are not strictly increasing. -/
def findUnordered : List (String × Nat) → Option (String × String)
  | (d₁, i₁) :: (d₂, i₂) :: rest =>
    if i₁ < i₂ then findUnordered ((d₂, i₂) :: rest) else some (d₁, d₂)
  | _ => none

/-- Modelled from the spec (section 4.3): `Manifest.assert_ordered` — resolve
all indices (failing with `NotFound` on the first missing directory), then
verify they are strictly increasing in caller order, failing with
`OutOfOrder` on the first violating adjacent pair; no side effect. -/
def assert_ordered (lines dirs : List String) : Except Err Unit :=
  match resolveIndices lines dirs with
  | .error e => .error e
  | .ok idxs =>
    match findUnordered (dirs.zip idxs) with
    | some p => .error (.outOfOrder p.1 p.2)
    | none => .ok ()

/-- Modelled from the spec (section 4.4 steps 1-3): `Manifest.reorder`'s new
line sequence — after checking every requested directory is present (same
failure mode as `assert_ordered`), keep the lines not matching any requested
directory in their original relative order and append one line per requested
directory in the caller-given order. -/
def reorder_lines (lines dirs : List String) : Except Err (List String) :=
  match resolveIndices lines dirs with
  | .error e => .error e
  | .ok _ => .ok (lines.filter (fun l => !(dirs.contains l)) ++ dirs)

/-- Modelled from the spec (section 4.4 steps 4-6): the persistence step.
The file's current content (as lines) is transformed by `reorder_lines`; the
temporary-file/atomic-replace discipline means the write either fully
succeeds or leaves the original untouched, so an I/O failure during
serialization or persistence (modelled by the flag `wOk` being `false`)
yields `WriteError` with the content unchanged.  Returns the resulting file
content together with the error, if any. -/
def reorderFile (lines dirs : List String) (wOk : Bool) :
    List String × Option Err :=
  match reorder_lines lines dirs with
  | .error e => (lines, some e)
  | .ok newLines => if wOk then (newLines, none) else (lines, some .writeError)

/-- Modelled from the spec (section 4.2): `load` splits the file content into
lines with each line's terminator preserved, so that re-serialization is
byte-identical.  Characters accumulate into the current line; a newline
character ends a line and is kept on it. -/
def splitKeepEnds : List Char → List (List Char)
  | [] => []
  | c :: cs =>
    if c = '\n' then [c] :: splitKeepEnds cs
    else
      match splitKeepEnds cs with
      | [] => [[c]]
      | l :: ls => (c :: l) :: ls

/-- Modelled from the spec (section 4.2): a `Manifest` freshly constructed
from a file's content: the ordered sequence of raw lines, terminators
included. -/
def load (s : String) : List String :=
  (splitKeepEnds s.data).map (fun l => ⟨l⟩)

/-- Modelled from the spec (section 4.2): `render` returns the full current
content as a single string — the concatenation of the raw lines in order. -/
def render (lines : List String) : String :=
  String.join lines

/-- The resolved line index of a directory (0 when absent; only meaningful
under a membership hypothesis). -/
def resolvedIdx (lines : List String) (d : String) : Nat :=
  (firstIndex d lines).getD 0

/-- The pair `(a, b)` is the first violating adjacent pair of the
DirectorySet `dirs` against `lines`: `dirs` splits as `pre ++ a :: b :: suf`,
the resolved indices are strictly increasing across `pre` up to and
including `a`, and `a`'s resolved index is not strictly below `b`'s. -/
def FirstViolation (lines dirs : List String) (a b : String) : Prop :=
  ∃ pre suf, dirs = pre ++ a :: b :: suf ∧
    ¬ resolvedIdx lines a < resolvedIdx lines b ∧
    List.Chain' (· < ·) ((pre ++ [a]).map (resolvedIdx lines))

/-- From `__main__.py` (`absdirs`): normalize each argument (tilde expansion
then absolute-path conversion, both external collaborators passed as
parameters) and require the result to exist on the filesystem; on the first
normalized path that does not exist the CLI prints a message and exits, which
is modelled by returning that path as the error. -/
def absdirs (expanduser abspath : String → String) (fsExists : String → Bool) :
    List String → Except String (List String)
  | [] => .ok []
  | p :: ps =>
    let absfile := abspath (expanduser p)
    if fsExists absfile then
      (absdirs expanduser abspath fsExists ps).map (fun rest => absfile :: rest)
    else .error absfile

/-- Modelled from the spec (section 4.1): the Locator — with an override
path, verify it names a readable regular file, else `NotFound`; without one,
probe the fixed ordered candidate list and return the first readable
candidate, failing with `NotFound` naming the probed locations.  The
filesystem is modelled as a map from a readable file's path to its stripped
lines. -/
def locate (fs : String → Option (List String)) (defaults : List String) :
    Option String → Except Err String
  | some p => if (fs p).isSome then .ok p else .error (.notFound p)
  | none =>
    match defaults.find? (fun p => (fs p).isSome) with
    | some p => .ok p
    | none => .error (.notFound (String.intercalate ", " defaults))

/-- Modelled from the spec (sections 4.1-4.2): constructing an `Editable`
bound to a location: locate the manifest, then read its line sequence,
failing with `ReadError` when the read fails. -/
def loadEditable (fs : String → Option (List String)) (defaults : List String)
    (override : Option String) : Except Err (List String) :=
  match locate fs defaults override with
  | .error e => .error e
  | .ok p =>
    match fs p with
    | some lines => .ok lines
    | none => .error .readError

/-- From `__main__.py` (`check`): the guarded core operation
`Editable(ei).assert_ordered(dirs)`. -/
def coreCheck (fs : String → Option (List String)) (defaults : List String)
    (ei : Option String) (dirs : List String) : Except Err Unit :=
  match loadEditable fs defaults ei with
  | .error e => .error e
  | .ok lines => assert_ordered lines dirs

/-- From `__main__.py` (`reorder`): the guarded core operation
`Editable(ei).reorder(dirs)`; `wOk` models whether the I/O of the rewrite
succeeds (section 4.4 steps 4-6). -/
def coreReorder (fs : String → Option (List String)) (defaults : List String)
    (ei : Option String) (dirs : List String) (wOk : Bool) :
    Except Err (List String) :=
  match loadEditable fs defaults ei with
  | .error e => .error e
  | .ok lines =>
    match reorder_lines lines dirs with
    | .error e => .error e
    | .ok res => if wOk then .ok res else .error .writeError

/-- How a CLI invocation ends: normal return, `sys.exit(code)`, or an
uncaught exception escaping the handler. -/
inductive CmdResult where
  | normal
  | exited (code : Nat)
  | crashed (e : Err)
deriving DecidableEq, Repr

/-- Observable behaviour of one CLI invocation: the messages printed to
stdout and to stderr, how the process ended, and whether the core manifest
operation was invoked. -/
structure Outcome where
  out : List String
  errOut : List String
  result : CmdResult
  coreRan : Bool
deriving DecidableEq, Repr

/-- From `__main__.py` (the `except ReorderEditableError` handler shared by
`check` and `reorder`): print `"Error: " + str(exc)` to stdout, then
`_print_editable_contents(stderr=True)` — which constructs `Editable()` with
NO override and prints that manifest's contents to stderr — then
`sys.exit(1)`.  The handler's own `Editable()` construction/read is not
inside any `try`, so its failure escapes as an uncaught exception. -/
def handleErr (fs : String → Option (List String)) (defaults : List String)
    (exc : Err) : Outcome :=
  match loadEditable fs defaults none with
  | .ok ls =>
    ⟨["Error: " ++ errMsg exc], [String.intercalate "\n" ls], .exited 1, true⟩
  | .error e2 => ⟨["Error: " ++ errMsg exc], [], .crashed e2, true⟩

/-- From `__main__.py` (`check`, the `try` statement): run
`Editable(ei).assert_ordered(dirs)`, dispatching to the shared handler on a
`ReorderEditableError`. -/
def checkBody (fs : String → Option (List String)) (defaults : List String)
    (ei : Option String) (dirs : List String) : Outcome :=
  match coreCheck fs defaults ei dirs with
  | .ok _ => ⟨[], [], .normal, true⟩
  | .error exc => handleErr fs defaults exc

/-- From `__main__.py` (`reorder`, the `try` statement): run
`Editable(ei).reorder(dirs)`, dispatching to the shared handler on a
`ReorderEditableError`. -/
def reorderBody (fs : String → Option (List String)) (defaults : List String)
    (ei : Option String) (dirs : List String) (wOk : Bool) : Outcome :=
  match coreReorder fs defaults ei dirs wOk with
  | .ok _ => ⟨[], [], .normal, true⟩
  | .error exc => handleErr fs defaults exc

/-- From `__main__.py` (`check`): validate the directory arguments with
`absdirs` (printing `<path> does not exist` to stderr and exiting 1 at the
first non-existent path, before the core is touched), then run the guarded
core operation. -/
def runCheck (fs : String → Option (List String)) (defaults : List String)
    (expanduser abspath : String → String) (fsExists : String → Bool)
    (ei : Option String) (directory : List String) : Outcome :=
  match absdirs expanduser abspath fsExists directory with
  | .error p => ⟨[], [p ++ " does not exist"], .exited 1, false⟩
  | .ok dirs => checkBody fs defaults ei dirs

/-- From `__main__.py` (`reorder`): same shape as `check`, with the core
operation `Editable(ei).reorder`. -/
def runReorder (fs : String → Option (List String)) (defaults : List String)
    (expanduser abspath : String → String) (fsExists : String → Bool)
    (ei : Option String) (directory : List String) (wOk : Bool) : Outcome :=
  match absdirs expanduser abspath fsExists directory with
  | .error p => ⟨[], [p ++ " does not exist"], .exited 1, false⟩
  | .ok dirs => reorderBody fs defaults ei dirs wOk

theorem firstIndex_eq_none_iff (d : String) (l : List String) :
    firstIndex d l = none ↔ d ∉ l := by
  induction l with
  | nil => simp [firstIndex]
  | cons x xs ih =>
    by_cases h : x = d
    · simp [firstIndex, h]
    · simp [firstIndex, h, ih, Ne.symm h]

theorem firstIndex_of_mem (d : String) (l : List String) (h : d ∈ l) :
    firstIndex d l = some (resolvedIdx l d) := by
  cases hfi : firstIndex d l with
  | none => exact absurd ((firstIndex_eq_none_iff d l).mp hfi) (by simp [h])
  | some i => simp [resolvedIdx, hfi]

theorem resolveIndices_ok (lines dirs : List String)
    (h : ∀ d ∈ dirs, d ∈ lines) :
    resolveIndices lines dirs = .ok (dirs.map (resolvedIdx lines)) := by
  induction dirs with
  | nil => rfl
  | cons d ds ih =>
    have hd : d ∈ lines := h d (by simp)
    simp only [resolveIndices, firstIndex_of_mem d lines hd,
      ih (fun e he => h e (by simp [he])), Except.map, List.map]

theorem resolveIndices_error_first (lines dirs : List String) (m : String)
    (h : dirs.find? (fun d => !(lines.contains d)) = some m) :
    resolveIndices lines dirs = .error (.notFound m) := by
  induction dirs with
  | nil => simp [List.find?] at h
  | cons d ds ih =>
    rw [List.find?_cons] at h
    by_cases hd : d ∈ lines
    · have hcont : (!(lines.contains d)) = false := by simp [hd]
      rw [hcont] at h
      simp only [resolveIndices, firstIndex_of_mem d lines hd, ih h, Except.map]
    · have hcont : (!(lines.contains d)) = true := by simp [hd]
      rw [hcont] at h
      obtain rfl : d = m := by simpa using h
      simp only [resolveIndices, (firstIndex_eq_none_iff d lines).mpr hd]

theorem zip_map_self (f : String → Nat) (l : List String) :
    l.zip (l.map f) = l.map (fun d => (d, f d)) := by
  induction l with
  | nil => rfl
  | cons x xs ih => simp [ih]

theorem findUnordered_eq_none_iff (ps : List (String × Nat)) :
    findUnordered ps = none ↔
      List.Chain' (fun p q : String × Nat => p.2 < q.2) ps := by
  induction ps with
  | nil => simp [findUnordered]
  | cons p ps ih =>
    cases ps with
    | nil => simp [findUnordered]
    | cons q qs =>
      obtain ⟨d₁, i₁⟩ := p
      obtain ⟨d₂, i₂⟩ := q
      by_cases hlt : i₁ < i₂
      · simp only [findUnordered, if_pos hlt, List.chain'_cons]
        rw [ih]
        simp [hlt]
      · simp only [findUnordered, if_neg hlt, List.chain'_cons]
        simp [hlt]

theorem chain_pairs_iff (f : String → Nat) (dirs : List String) :
    List.Chain' (fun p q : String × Nat => p.2 < q.2)
        (dirs.map (fun d => (d, f d))) ↔
      List.Chain' (· < ·) (dirs.map f) := by
  rw [List.chain'_map, List.chain'_map]

theorem findUnordered_map_eq_some (f : String → Nat) (dirs : List String)
    (a b : String)
    (h : findUnordered (dirs.map (fun d => (d, f d))) = some (a, b)) :
    ∃ pre suf, dirs = pre ++ a :: b :: suf ∧ ¬ f a < f b ∧
      List.Chain' (· < ·) ((pre ++ [a]).map f) := by
  induction dirs with
  | nil => simp [findUnordered] at h
  | cons d ds ih =>
    cases ds with
    | nil => simp [findUnordered] at h
    | cons e es =>
      simp only [List.map] at h
      by_cases hlt : f d < f e
      · rw [findUnordered, if_pos hlt] at h
        obtain ⟨pre, suf, hds, hnlt, hch⟩ := ih (by simpa using h)
        refine ⟨d :: pre, suf, by rw [List.cons_append, hds], hnlt, ?_⟩
        have hhead : (pre ++ [a]).head? = some e := by
          have h2 := congrArg List.head? hds
          cases pre <;> simp_all
        simp only [List.cons_append, List.map_cons, List.chain'_cons']
        refine ⟨?_, hch⟩
        intro y hy
        rw [List.head?_map, hhead] at hy
        obtain rfl : f e = y := by simpa using hy
        exact hlt
      · rw [findUnordered, if_neg hlt] at h
        obtain ⟨rfl, rfl⟩ : d = a ∧ e = b := by simpa using h
        exact ⟨[], es, rfl, hlt, by simp⟩

theorem mem_of_firstIndex_some (d : String) (l : List String) (i : Nat)
    (h : firstIndex d l = some i) : d ∈ l := by
  by_contra hn
  rw [(firstIndex_eq_none_iff d l).mpr hn] at h
  cases h

theorem resolveIndices_ok_mem (lines dirs : List String) (idxs : List Nat)
    (h : resolveIndices lines dirs = .ok idxs) : ∀ d ∈ dirs, d ∈ lines := by
  induction dirs generalizing idxs with
  | nil => simp
  | cons d ds ih =>
    intro e he
    unfold resolveIndices at h
    cases hfi : firstIndex d lines with
    | none => rw [hfi] at h; cases h
    | some i =>
      rw [hfi] at h
      cases hr : resolveIndices lines ds with
      | error e2 => rw [hr] at h; simp [Except.map] at h
      | ok is =>
        rcases List.mem_cons.mp he with rfl | hin
        · exact mem_of_firstIndex_some e lines i hfi
        · exact ih is hr e hin

theorem assert_ordered_eq (lines dirs : List String)
    (h : ∀ d ∈ dirs, d ∈ lines) :
    assert_ordered lines dirs =
      match findUnordered (dirs.map (fun d => (d, resolvedIdx lines d))) with
      | some p => .error (.outOfOrder p.1 p.2)
      | none => .ok () := by
  unfold assert_ordered
  rw [resolveIndices_ok lines dirs h]
  simp only [zip_map_self]

theorem assert_ordered_ok_iff (lines dirs : List String)
    (h : ∀ d ∈ dirs, d ∈ lines) :
    assert_ordered lines dirs = .ok () ↔
      List.Chain' (· < ·) (dirs.map (resolvedIdx lines)) := by
  rw [assert_ordered_eq lines dirs h]
  cases hfu : findUnordered (dirs.map (fun d => (d, resolvedIdx lines d))) with
  | none =>
    have hc := (findUnordered_eq_none_iff _).mp hfu
    rw [chain_pairs_iff] at hc
    simpa using hc
  | some p =>
    have hnc : ¬ List.Chain' (· < ·) (dirs.map (resolvedIdx lines)) := by
      intro hc
      have := (findUnordered_eq_none_iff _).mpr ((chain_pairs_iff _ _).mpr hc)
      rw [hfu] at this
      cases this
    simp [hnc]

theorem assert_ordered_out_first (lines dirs : List String) (a b : String)
    (h : ∀ d ∈ dirs, d ∈ lines)
    (he : assert_ordered lines dirs = .error (.outOfOrder a b)) :
    ∃ pre suf, dirs = pre ++ a :: b :: suf ∧
      ¬ resolvedIdx lines a < resolvedIdx lines b ∧
      List.Chain' (· < ·) ((pre ++ [a]).map (resolvedIdx lines)) := by
  rw [assert_ordered_eq lines dirs h] at he
  cases hfu : findUnordered (dirs.map (fun d => (d, resolvedIdx lines d))) with
  | none => rw [hfu] at he; cases he
  | some p =>
    rw [hfu] at he
    obtain ⟨p1, p2⟩ := p
    obtain ⟨rfl, rfl⟩ : p1 = a ∧ p2 = b := by simpa using he
    exact findUnordered_map_eq_some _ _ _ _ hfu

theorem assert_ordered_fails_out (lines dirs : List String)
    (h : ∀ d ∈ dirs, d ∈ lines)
    (hnc : ¬ List.Chain' (· < ·) (dirs.map (resolvedIdx lines))) :
    ∃ a b, assert_ordered lines dirs = .error (.outOfOrder a b) := by
  rw [assert_ordered_eq lines dirs h]
  cases hfu : findUnordered (dirs.map (fun d => (d, resolvedIdx lines d))) with
  | none =>
    have hc := (findUnordered_eq_none_iff _).mp hfu
    rw [chain_pairs_iff] at hc
    exact absurd hc hnc
  | some p => exact ⟨p.1, p.2, rfl⟩

theorem reorder_lines_ok (lines dirs : List String)
    (h : ∀ d ∈ dirs, d ∈ lines) :
    reorder_lines lines dirs =
      .ok (lines.filter (fun l => !(dirs.contains l)) ++ dirs) := by
  unfold reorder_lines
  rw [resolveIndices_ok lines dirs h]

theorem reorder_lines_error_first (lines dirs : List String) (m : String)
    (h : dirs.find? (fun d => !(lines.contains d)) = some m) :
    reorder_lines lines dirs = .error (.notFound m) := by
  unfold reorder_lines
  rw [resolveIndices_error_first lines dirs m h]

theorem assert_ordered_error_first (lines dirs : List String) (m : String)
    (h : dirs.find? (fun d => !(lines.contains d)) = some m) :
    assert_ordered lines dirs = .error (.notFound m) := by
  unfold assert_ordered
  rw [resolveIndices_error_first lines dirs m h]

theorem reorder_lines_ok_inv (lines dirs res : List String)
    (h : reorder_lines lines dirs = .ok res) :
    (∀ d ∈ dirs, d ∈ lines) ∧
      res = lines.filter (fun l => !(dirs.contains l)) ++ dirs := by
  unfold reorder_lines at h
  cases hr : resolveIndices lines dirs with
  | error e => rw [hr] at h; cases h
  | ok idxs =>
    rw [hr] at h
    refine ⟨resolveIndices_ok_mem lines dirs idxs hr, ?_⟩
    injection h with h2
    exact h2.symm

theorem resolvedIdx_cons_of_mem (x d : String) (l : List String)
    (hne : x ≠ d) (hd : d ∈ l) :
    resolvedIdx (x :: l) d = resolvedIdx l d + 1 := by
  rw [resolvedIdx, firstIndex, if_neg hne, firstIndex_of_mem d l hd]
  simp

theorem map_resolvedIdx_self (dirs : List String) (hnd : dirs.Nodup) :
    dirs.map (fun d => resolvedIdx dirs d) = List.range dirs.length := by
  induction dirs with
  | nil => rfl
  | cons d ds ih =>
    rw [List.map_cons]
    have h0 : resolvedIdx (d :: ds) d = 0 := by simp [resolvedIdx, firstIndex]
    rw [h0]
    have hmap : ds.map (fun e => resolvedIdx (d :: ds) e) =
        ds.map (fun e => resolvedIdx ds e + 1) := by
      apply List.map_congr_left
      intro e he
      have hne : d ≠ e := by
        rintro rfl
        exact (List.nodup_cons.mp hnd).1 he
      exact resolvedIdx_cons_of_mem d e ds hne he
    rw [hmap, show ds.map (fun e => resolvedIdx ds e + 1) =
      (ds.map (fun e => resolvedIdx ds e)).map (· + 1) from (List.map_map _ _ _).symm]
    rw [ih (List.nodup_cons.mp hnd).2, List.length_cons, List.range_succ_eq_map]

theorem resolvedIdx_append (A B : List String) (d : String)
    (hA : d ∉ A) (hB : d ∈ B) :
    resolvedIdx (A ++ B) d = A.length + resolvedIdx B d := by
  induction A with
  | nil => simp
  | cons x xs ih =>
    have hne : x ≠ d := by
      rintro rfl
      exact hA (by simp)
    have hx : d ∉ xs := fun hc => hA (by simp [hc])
    rw [List.cons_append, resolvedIdx, firstIndex, if_neg hne,
      firstIndex_of_mem d _ (List.mem_append_right _ hB)]
    simp only [Option.map_some', Option.getD_some, ih hx, List.length_cons]
    omega

theorem assert_ordered_filter_append (lines dirs : List String)
    (hnd : dirs.Nodup) :
    assert_ordered (lines.filter (fun l => !(dirs.contains l)) ++ dirs) dirs =
      .ok () := by
  have hall : ∀ d ∈ dirs, d ∈ lines.filter (fun l => !(dirs.contains l)) ++ dirs :=
    fun d hd => List.mem_append_right _ hd
  rw [assert_ordered_ok_iff _ _ hall]
  have hmap : dirs.map (resolvedIdx (lines.filter (fun l => !(dirs.contains l)) ++ dirs)) =
      (dirs.map (fun d => resolvedIdx dirs d)).map
        (fun i => (lines.filter (fun l => !(dirs.contains l))).length + i) := by
    rw [List.map_map]
    apply List.map_congr_left
    intro d hd
    have hnotA : d ∉ lines.filter (fun l => !(dirs.contains l)) := by
      intro hc
      have h2 := (List.mem_filter.mp hc).2
      simp [hd] at h2
    exact resolvedIdx_append _ _ d hnotA hd
  rw [hmap, map_resolvedIdx_self dirs hnd, List.chain'_map]
  exact ((List.pairwise_lt_range _).chain').imp (fun a b hab => by omega)

theorem filter_not_contains_append (lines dirs : List String) :
    ((lines.filter (fun l => !(dirs.contains l)) ++ dirs).filter
        (fun l => !(dirs.contains l))) =
      lines.filter (fun l => !(dirs.contains l)) := by
  rw [List.filter_append, List.filter_filter]
  have h1 : dirs.filter (fun l => !(dirs.contains l)) = [] := by
    rw [List.filter_eq_nil_iff]
    intro a ha
    simp [ha]
  have h2 : lines.filter (fun l => !(dirs.contains l) && !(dirs.contains l)) =
      lines.filter (fun l => !(dirs.contains l)) := by
    apply List.filter_congr
    intro a _
    cases dirs.contains a <;> rfl
  rw [h1, h2, List.append_nil]

theorem splitKeepEnds_join (cs : List Char) : (splitKeepEnds cs).flatten = cs := by
  induction cs with
  | nil => rfl
  | cons c cs ih =>
    by_cases h : c = '\n'
    · simp only [splitKeepEnds, if_pos h, List.flatten_cons]
      rw [ih]
      simp
    · simp only [splitKeepEnds, if_neg h]
      cases hs : splitKeepEnds cs with
      | nil =>
        rw [hs] at ih
        simp only [List.flatten_nil] at ih
        simp [List.flatten, ← ih]
      | cons l ls =>
        rw [hs] at ih
        simp only [List.flatten_cons] at ih ⊢
        simp [← ih]

theorem foldl_append_mk (ls : List (List Char)) (acc : List Char) :
    List.foldl (fun r s => r ++ s) (String.mk acc) (ls.map (fun l => String.mk l)) =
      String.mk (acc ++ ls.flatten) := by
  induction ls generalizing acc with
  | nil => simp
  | cons l ls ih =>
    simp only [List.map_cons, List.foldl_cons, List.flatten_cons]
    rw [show String.mk acc ++ String.mk l = String.mk (acc ++ l) from rfl, ih]
    simp

theorem matching_filter_eq (lines dirs : List String) :
    (lines.filter (fun l => !(dirs.contains l)) ++ dirs).filter
      (fun l => dirs.contains l) = dirs := by
  rw [List.filter_append]
  have h1 : (lines.filter (fun l => !(dirs.contains l))).filter
      (fun l => dirs.contains l) = [] := by
    rw [List.filter_eq_nil_iff]
    intro a ha
    have h2 := (List.mem_filter.mp ha).2
    simpa using h2
  have h3 : dirs.filter (fun l => dirs.contains l) = dirs := by
    rw [List.filter_eq_self]
    intro a ha
    simp [ha]
  rw [h1, h3, List.nil_append]

/-- Claim C5: for every manifest file, with no reorder applied, `render`
after `load` reproduces the original content exactly, including each line's
terminator style and the presence or absence of a trailing newline. -/
theorem C5_round_trip (s : String) : render (load s) = s := by
  unfold render load String.join
  have h := foldl_append_mk (splitKeepEnds s.data) []
  simp only [List.nil_append] at h
  rw [show ("" : String) = String.mk [] from rfl, h, splitKeepEnds_join]

/-- Claim C8: on the manifest whose lines are `/a`, `import x`, `/b`, `/c`,
`assert_ordered [/c, /a]` fails with `OutOfOrder` reporting the pair
`(/c, /a)`, and `reorder [/c, /a]` yields exactly the lines
`import x`, `/b`, `/c`, `/a`. -/
theorem C8_scenario :
    assert_ordered ["/a", "import x", "/b", "/c"] ["/c", "/a"] =
        .error (.outOfOrder "/c" "/a")
      ∧ reorder_lines ["/a", "import x", "/b", "/c"] ["/c", "/a"] =
        .ok ["import x", "/b", "/c", "/a"] := by
  constructor <;> rfl

/-- Claim C1 is false as stated: take the manifest `[/a]` and the
DirectorySet `[/a, /a]`, whose members are all present.  `reorder` succeeds
and produces exactly the predicted line sequence (and its last 2 matching
lines are the requested directories in order), yet a fresh `assert_ordered`
with the same DirectorySet fails with `OutOfOrder`, because both occurrences
resolve to the same line index — contradicting the claimed "load() followed
by assert_ordered(D) succeeds". -/
theorem C1_counterexample :
    reorder_lines ["/a"] ["/a", "/a"] = .ok ["/a", "/a"]
      ∧ assert_ordered ["/a", "/a"] ["/a", "/a"] =
        .error (.outOfOrder "/a" "/a") := by
  constructor <;> rfl

/-- Claim C1 (amended to duplicate-free DirectorySets): for every manifest
and every duplicate-free DirectorySet whose members are all present, a
successful `reorder` replaces the line sequence with the non-matching lines
in their original relative order followed by one line per requested
directory in caller order; consequently `assert_ordered` on the resulting
lines succeeds, the PathEntry-matching lines of the result are exactly the
requested directories in caller order, and they are the last N lines. -/
theorem C1_reorder_postcondition (lines dirs : List String)
    (h : ∀ d ∈ dirs, d ∈ lines) (hnd : dirs.Nodup) :
    reorder_lines lines dirs =
        .ok (lines.filter (fun l => !(dirs.contains l)) ++ dirs)
      ∧ assert_ordered
          (lines.filter (fun l => !(dirs.contains l)) ++ dirs) dirs = .ok ()
      ∧ (lines.filter (fun l => !(dirs.contains l)) ++ dirs).filter
          (fun l => dirs.contains l) = dirs
      ∧ (lines.filter (fun l => !(dirs.contains l)) ++ dirs).drop
          (lines.filter (fun l => !(dirs.contains l))).length = dirs :=
  ⟨reorder_lines_ok lines dirs h,
   assert_ordered_filter_append lines dirs hnd,
   matching_filter_eq lines dirs,
   List.drop_left _ _⟩

/-- Claim C1 amended, witnessed on the spec's own scenario manifest. -/
theorem C1_witness :
    reorder_lines ["/a", "import x", "/b", "/c"] ["/c", "/a"] =
        .ok ((["/a", "import x", "/b", "/c"].filter
            (fun l => !(["/c", "/a"].contains l))) ++ ["/c", "/a"])
      ∧ assert_ordered
          ((["/a", "import x", "/b", "/c"].filter
            (fun l => !(["/c", "/a"].contains l))) ++ ["/c", "/a"])
          ["/c", "/a"] = .ok ()
      ∧ ((["/a", "import x", "/b", "/c"].filter
            (fun l => !(["/c", "/a"].contains l))) ++ ["/c", "/a"]).filter
          (fun l => ["/c", "/a"].contains l) = ["/c", "/a"]
      ∧ ((["/a", "import x", "/b", "/c"].filter
            (fun l => !(["/c", "/a"].contains l))) ++ ["/c", "/a"]).drop
          (["/a", "import x", "/b", "/c"].filter
            (fun l => !(["/c", "/a"].contains l))).length = ["/c", "/a"] :=
  C1_reorder_postcondition ["/a", "import x", "/b", "/c"] ["/c", "/a"]
    (by decide) (by decide)

/-- Claim C2: for every manifest and every DirectorySet whose members are
all present, `assert_ordered` succeeds iff the members' resolved line
indices are strictly increasing in the caller's order; whenever it reports
`OutOfOrder (a, b)` that pair is the first violating adjacent pair scanning
left to right; and when the indices are not strictly increasing it does fail
with some `OutOfOrder` pair.  (It is a pure function of the line sequence,
so it has no side effect by construction.) -/
theorem C2_assert_ordered_correct (lines dirs : List String)
    (h : ∀ d ∈ dirs, d ∈ lines) :
    (assert_ordered lines dirs = .ok () ↔
        List.Chain' (· < ·) (dirs.map (resolvedIdx lines)))
      ∧ (∀ a b, assert_ordered lines dirs = .error (.outOfOrder a b) →
          FirstViolation lines dirs a b)
      ∧ (¬ List.Chain' (· < ·) (dirs.map (resolvedIdx lines)) →
          ∃ a b, assert_ordered lines dirs = .error (.outOfOrder a b)) :=
  ⟨assert_ordered_ok_iff lines dirs h,
   fun a b he => assert_ordered_out_first lines dirs a b h he,
   assert_ordered_fails_out lines dirs h⟩

/-- Claim C2, witnessed on the spec's scenario manifest. -/
theorem C2_witness :
    (assert_ordered ["/a", "import x", "/b", "/c"] ["/c", "/a"] = .ok () ↔
        List.Chain' (· < ·)
          (["/c", "/a"].map (resolvedIdx ["/a", "import x", "/b", "/c"])))
      ∧ (∀ a b,
          assert_ordered ["/a", "import x", "/b", "/c"] ["/c", "/a"] =
              .error (.outOfOrder a b) →
            FirstViolation ["/a", "import x", "/b", "/c"] ["/c", "/a"] a b)
      ∧ (¬ List.Chain' (· < ·)
            (["/c", "/a"].map (resolvedIdx ["/a", "import x", "/b", "/c"])) →
          ∃ a b,
            assert_ordered ["/a", "import x", "/b", "/c"] ["/c", "/a"] =
              .error (.outOfOrder a b)) :=
  C2_assert_ordered_correct ["/a", "import x", "/b", "/c"] ["/c", "/a"]
    (by decide)

/-- Claim C3: when `reorder` succeeds, every line not matching a requested
directory appears in the result with unchanged content, and the relative
order of the non-matching lines is unchanged: the non-matching sublist of
the result equals the non-matching sublist of the original. -/
theorem C3_frame (lines dirs res : List String)
    (h : reorder_lines lines dirs = .ok res) :
    res.filter (fun l => !(dirs.contains l)) =
      lines.filter (fun l => !(dirs.contains l)) := by
  obtain ⟨hmem, rfl⟩ := reorder_lines_ok_inv lines dirs res h
  exact filter_not_contains_append lines dirs

/-- Claim C3, witnessed on the spec's scenario manifest. -/
theorem C3_witness :
    (["import x", "/b", "/c", "/a"] : List String).filter
        (fun l => !(["/c", "/a"].contains l)) =
      (["/a", "import x", "/b", "/c"] : List String).filter
        (fun l => !(["/c", "/a"].contains l)) :=
  C3_frame ["/a", "import x", "/b", "/c"] ["/c", "/a"]
    ["import x", "/b", "/c", "/a"] (by rfl)

/-- Claim C4: whenever `reorder` fails — a requested directory missing, or
an I/O failure during serialization/persistence (`WriteError`) — the
manifest's content is left unchanged; and when it succeeds, every requested
directory was present and the full rewrite is applied. -/
theorem C4_reorder_atomic (lines dirs : List String) (wOk : Bool) :
    (∀ e, (reorderFile lines dirs wOk).2 = some e →
        (reorderFile lines dirs wOk).1 = lines)
      ∧ ((reorderFile lines dirs wOk).2 = none →
          (∀ d ∈ dirs, d ∈ lines) ∧
            (reorderFile lines dirs wOk).1 =
              lines.filter (fun l => !(dirs.contains l)) ++ dirs) := by
  unfold reorderFile
  cases hr : reorder_lines lines dirs with
  | error e => simp
  | ok res =>
    obtain ⟨hmem, rfl⟩ := reorder_lines_ok_inv lines dirs res hr
    cases wOk
    · simp
    · simp
      exact hmem

/-- Claim C4, witnessed: a failing write (`wOk = false`) on a manifest whose
requested directory is present leaves the content unchanged. -/
theorem C4_witness :
    (reorderFile ["/a", "/b"] ["/b"] false).1 = ["/a", "/b"] :=
  (C4_reorder_atomic ["/a", "/b"] ["/b"] false).1 .writeError (by rfl)

/-- Claim C6: when the DirectorySet contains a directory with no matching
line, both `assert_ordered` and `reorder` fail with `NotFound` naming the
first missing directory in caller order (no crash, no silent success), the
named directory really is a missing member, and `reorder` leaves the file
content unchanged — in particular it never creates an entry for the missing
directory. -/
theorem C6_missing_rejected (lines dirs : List String) (m : String)
    (wOk : Bool)
    (h : dirs.find? (fun d => !(lines.contains d)) = some m) :
    m ∈ dirs ∧ m ∉ lines
      ∧ assert_ordered lines dirs = .error (.notFound m)
      ∧ reorder_lines lines dirs = .error (.notFound m)
      ∧ reorderFile lines dirs wOk = (lines, some (.notFound m)) := by
  have hm : m ∈ dirs := List.mem_of_find?_eq_some h
  have hnm : m ∉ lines := by
    have h2 := List.find?_some h
    simpa using h2
  refine ⟨hm, hnm, assert_ordered_error_first lines dirs m h,
    reorder_lines_error_first lines dirs m h, ?_⟩
  unfold reorderFile
  rw [reorder_lines_error_first lines dirs m h]

/-- Claim C6, witnessed: `/missing` is requested but absent. -/
theorem C6_witness :
    ("/missing" : String) ∈ ["/a", "/missing"]
      ∧ ("/missing" : String) ∉ ["/a", "import x"]
      ∧ assert_ordered ["/a", "import x"] ["/a", "/missing"] =
          .error (.notFound "/missing")
      ∧ reorder_lines ["/a", "import x"] ["/a", "/missing"] =
          .error (.notFound "/missing")
      ∧ reorderFile ["/a", "import x"] ["/a", "/missing"] true =
          (["/a", "import x"], some (.notFound "/missing")) :=
  C6_missing_rejected ["/a", "import x"] ["/a", "/missing"] "/missing" true
    (by rfl)

/-- Claim C7: when `reorder(D)` succeeds, running `reorder(D)` again on the
resulting content succeeds and yields exactly the same content, so two
successive runs give the same final file as one. -/
theorem C7_idempotent (lines dirs res : List String)
    (h : reorder_lines lines dirs = .ok res) :
    reorder_lines res dirs = .ok res := by
  obtain ⟨hmem, rfl⟩ := reorder_lines_ok_inv lines dirs res h
  have hall : ∀ d ∈ dirs,
      d ∈ lines.filter (fun l => !(dirs.contains l)) ++ dirs :=
    fun d hd => List.mem_append_right _ hd
  rw [reorder_lines_ok _ _ hall, filter_not_contains_append lines dirs]

/-- Claim C7, witnessed on the spec's scenario manifest. -/
theorem C7_witness :
    reorder_lines ["import x", "/b", "/c", "/a"] ["/c", "/a"] =
      .ok ["import x", "/b", "/c", "/a"] :=
  C7_idempotent ["/a", "import x", "/b", "/c"] ["/c", "/a"]
    ["import x", "/b", "/c", "/a"] (by rfl)

theorem absdirs_ok (expanduser abspath : String → String)
    (fsExists : String → Bool) (pos : List String)
    (h : ∀ p ∈ pos, fsExists (abspath (expanduser p)) = true) :
    absdirs expanduser abspath fsExists pos =
      .ok (pos.map (fun p => abspath (expanduser p))) := by
  induction pos with
  | nil => rfl
  | cons p ps ih =>
    simp only [absdirs, List.map_cons]
    rw [if_pos (h p (by simp)), ih (fun q hq => h q (by simp [hq]))]
    rfl

theorem absdirs_error_first (expanduser abspath : String → String)
    (fsExists : String → Bool) (pos : List String) (q : String)
    (h : pos.find? (fun p => !(fsExists (abspath (expanduser p)))) = some q) :
    absdirs expanduser abspath fsExists pos =
      .error (abspath (expanduser q)) := by
  induction pos with
  | nil => simp [List.find?] at h
  | cons p ps ih =>
    rw [List.find?_cons] at h
    by_cases hp : fsExists (abspath (expanduser p)) = true
    · have hc : (!(fsExists (abspath (expanduser p)))) = false := by simp [hp]
      rw [hc] at h
      simp only [absdirs]
      rw [if_pos hp, ih h]
      rfl
    · have hc : (!(fsExists (abspath (expanduser p)))) = true := by simp [hp]
      rw [hc] at h
      obtain rfl : p = q := by simpa using h
      simp only [absdirs]
      rw [if_neg hp]

theorem runCheck_absdirs_ok (fs : String → Option (List String))
    (defaults : List String) (expanduser abspath : String → String)
    (fsExists : String → Bool) (ei : Option String)
    (directory dirs : List String)
    (habs : absdirs expanduser abspath fsExists directory = .ok dirs) :
    runCheck fs defaults expanduser abspath fsExists ei directory =
      checkBody fs defaults ei dirs := by
  unfold runCheck
  rw [habs]

theorem runCheck_absdirs_error (fs : String → Option (List String))
    (defaults : List String) (expanduser abspath : String → String)
    (fsExists : String → Bool) (ei : Option String)
    (directory : List String) (p : String)
    (habs : absdirs expanduser abspath fsExists directory = .error p) :
    runCheck fs defaults expanduser abspath fsExists ei directory =
      ⟨[], [p ++ " does not exist"], .exited 1, false⟩ := by
  unfold runCheck
  rw [habs]

theorem runReorder_absdirs_ok (fs : String → Option (List String))
    (defaults : List String) (expanduser abspath : String → String)
    (fsExists : String → Bool) (ei : Option String)
    (directory dirs : List String) (wOk : Bool)
    (habs : absdirs expanduser abspath fsExists directory = .ok dirs) :
    runReorder fs defaults expanduser abspath fsExists ei directory wOk =
      reorderBody fs defaults ei dirs wOk := by
  unfold runReorder
  rw [habs]

theorem runReorder_absdirs_error (fs : String → Option (List String))
    (defaults : List String) (expanduser abspath : String → String)
    (fsExists : String → Bool) (ei : Option String)
    (directory : List String) (p : String) (wOk : Bool)
    (habs : absdirs expanduser abspath fsExists directory = .error p) :
    runReorder fs defaults expanduser abspath fsExists ei directory wOk =
      ⟨[], [p ++ " does not exist"], .exited 1, false⟩ := by
  unfold runReorder
  rw [habs]

theorem handleErr_located (fs : String → Option (List String))
    (defaults : List String) (exc : Err) (ls : List String)
    (h : loadEditable fs defaults none = .ok ls) :
    handleErr fs defaults exc =
      ⟨["Error: " ++ errMsg exc], [String.intercalate "\n" ls],
        .exited 1, true⟩ := by
  unfold handleErr
  rw [h]

theorem handleErr_crashes (fs : String → Option (List String))
    (defaults : List String) (exc : Err) (e2 : Err)
    (h : loadEditable fs defaults none = .error e2) :
    handleErr fs defaults exc =
      ⟨["Error: " ++ errMsg exc], [], .crashed e2, true⟩ := by
  unfold handleErr
  rw [h]

theorem checkBody_ok (fs : String → Option (List String))
    (defaults : List String) (ei : Option String) (dirs : List String)
    (h : coreCheck fs defaults ei dirs = .ok ()) :
    checkBody fs defaults ei dirs = ⟨[], [], .normal, true⟩ := by
  unfold checkBody
  rw [h]

theorem checkBody_error (fs : String → Option (List String))
    (defaults : List String) (ei : Option String) (dirs : List String)
    (exc : Err) (h : coreCheck fs defaults ei dirs = .error exc) :
    checkBody fs defaults ei dirs = handleErr fs defaults exc := by
  unfold checkBody
  rw [h]

theorem reorderBody_ok (fs : String → Option (List String))
    (defaults : List String) (ei : Option String) (dirs : List String)
    (wOk : Bool) (res : List String)
    (h : coreReorder fs defaults ei dirs wOk = .ok res) :
    reorderBody fs defaults ei dirs wOk = ⟨[], [], .normal, true⟩ := by
  unfold reorderBody
  rw [h]

theorem reorderBody_error (fs : String → Option (List String))
    (defaults : List String) (ei : Option String) (dirs : List String)
    (wOk : Bool) (exc : Err)
    (h : coreReorder fs defaults ei dirs wOk = .error exc) :
    reorderBody fs defaults ei dirs wOk = handleErr fs defaults exc := by
  unfold reorderBody
  rw [h]

/-- Claim C9: `absdirs` maps every input path to its normalized form
`abspath(expanduser(·))`, in order and of the same length, when every
normalized path exists; otherwise, at the first input whose normalized path
does not exist, both CLI commands print a message naming that path and exit
with code 1 before the core manifest operation is ever invoked. -/
theorem C9_absdirs_correct (expanduser abspath : String → String)
    (fsExists : String → Bool) (pos : List String) :
    ((∀ p ∈ pos, fsExists (abspath (expanduser p)) = true) →
        absdirs expanduser abspath fsExists pos =
          .ok (pos.map (fun p => abspath (expanduser p))))
      ∧ ∀ q, pos.find? (fun p => !(fsExists (abspath (expanduser p)))) =
          some q →
        absdirs expanduser abspath fsExists pos =
            .error (abspath (expanduser q))
          ∧ ∀ fs defaults ei wOk,
              runCheck fs defaults expanduser abspath fsExists ei pos =
                  ⟨[], [abspath (expanduser q) ++ " does not exist"],
                    .exited 1, false⟩
                ∧ runReorder fs defaults expanduser abspath fsExists ei pos
                    wOk =
                  ⟨[], [abspath (expanduser q) ++ " does not exist"],
                    .exited 1, false⟩ := by
  refine ⟨absdirs_ok expanduser abspath fsExists pos, ?_⟩
  intro q hq
  have herr := absdirs_error_first expanduser abspath fsExists pos q hq
  exact ⟨herr, fun fs defaults ei wOk =>
    ⟨runCheck_absdirs_error fs defaults expanduser abspath fsExists ei pos
        _ herr,
      runReorder_absdirs_error fs defaults expanduser abspath fsExists ei pos
        _ wOk herr⟩⟩

/-- Claim C9, witnessed: all paths exist in the first scenario; in the
second, `/missing` is the first non-existent normalized path and both
commands exit 1 without the core running. -/
theorem C9_witness :
    absdirs id id (fun p => !(p == "/missing")) ["/a", "/b"] =
        .ok ["/a", "/b"]
      ∧ absdirs id id (fun p => !(p == "/missing")) ["/a", "/missing"] =
          .error "/missing"
      ∧ runCheck (fun _ => none) [] id id (fun p => !(p == "/missing")) none
            ["/a", "/missing"] =
          ⟨[], ["/missing does not exist"], .exited 1, false⟩
      ∧ runReorder (fun _ => none) [] id id (fun p => !(p == "/missing"))
            none ["/a", "/missing"] true =
          ⟨[], ["/missing does not exist"], .exited 1, false⟩ := by
  have h1 := (C9_absdirs_correct id id (fun p => !(p == "/missing"))
      ["/a", "/b"]).1 (by decide)
  have h2 := (C9_absdirs_correct id id (fun p => !(p == "/missing"))
      ["/a", "/missing"]).2 "/missing" (by decide)
  exact ⟨h1, h2.1, (h2.2 (fun _ => none) [] none true).1,
    (h2.2 (fun _ => none) [] none true).2⟩

/-- Claim C10 is false as stated: run `check` with override `/custom.pth`
(an existing, empty manifest) and the directory `/d`, which exists on the
filesystem but has no manifest entry.  The core raises `NotFound`, the
handler prints the `Error: `-prefixed message, but `_print_editable_contents`
re-locates the manifest with NO override, finds no default candidate, and
raises a new uncaught error — so no manifest contents reach stderr and the
process does not exit with code 1. -/
theorem C10_counterexample :
    runCheck (fun p => if p == "/custom.pth" then some [] else none)
        ["/default.pth"] id id (fun _ => true) (some "/custom.pth") ["/d"] =
      ⟨["Error: " ++ errMsg (.notFound "/d")], [],
        .crashed (.notFound "/default.pth"), true⟩ := by
  rfl

/-- Claim C10 (amended: the handler's diagnostic reprint must itself
succeed): for the `check` and `reorder` commands, every
`ReorderEditableError` raised by the core operation is caught, the error
message is printed prefixed with `Error: `, and — provided the manifest can
be re-located with no override and read — its contents are printed to
stderr and the process exits with code 1; when that diagnostic step fails,
its own error propagates uncaught (the core's error is still never
propagated).  On success the process ends normally. -/
theorem C10_error_handling (fs : String → Option (List String))
    (defaults : List String) (expanduser abspath : String → String)
    (fsExists : String → Bool) (ei : Option String)
    (directory dirs : List String) (wOk : Bool)
    (habs : absdirs expanduser abspath fsExists directory = .ok dirs) :
    (∀ exc, coreCheck fs defaults ei dirs = .error exc →
        (∀ ls, loadEditable fs defaults none = .ok ls →
            runCheck fs defaults expanduser abspath fsExists ei directory =
              ⟨["Error: " ++ errMsg exc], [String.intercalate "\n" ls],
                .exited 1, true⟩)
          ∧ (∀ e2, loadEditable fs defaults none = .error e2 →
              runCheck fs defaults expanduser abspath fsExists ei directory =
                ⟨["Error: " ++ errMsg exc], [], .crashed e2, true⟩))
      ∧ (coreCheck fs defaults ei dirs = .ok () →
          runCheck fs defaults expanduser abspath fsExists ei directory =
            ⟨[], [], .normal, true⟩)
      ∧ (∀ exc, coreReorder fs defaults ei dirs wOk = .error exc →
          (∀ ls, loadEditable fs defaults none = .ok ls →
              runReorder fs defaults expanduser abspath fsExists ei directory
                  wOk =
                ⟨["Error: " ++ errMsg exc], [String.intercalate "\n" ls],
                  .exited 1, true⟩)
            ∧ (∀ e2, loadEditable fs defaults none = .error e2 →
                runReorder fs defaults expanduser abspath fsExists ei
                    directory wOk =
                  ⟨["Error: " ++ errMsg exc], [], .crashed e2, true⟩))
      ∧ (∀ res, coreReorder fs defaults ei dirs wOk = .ok res →
          runReorder fs defaults expanduser abspath fsExists ei directory
              wOk =
            ⟨[], [], .normal, true⟩) := by
  refine ⟨?_, ?_, ?_, ?_⟩
  · intro exc hexc
    refine ⟨fun ls hls => ?_, fun e2 he2 => ?_⟩
    · rw [runCheck_absdirs_ok fs defaults expanduser abspath fsExists ei
        directory dirs habs, checkBody_error fs defaults ei dirs exc hexc,
        handleErr_located fs defaults exc ls hls]
    · rw [runCheck_absdirs_ok fs defaults expanduser abspath fsExists ei
        directory dirs habs, checkBody_error fs defaults ei dirs exc hexc,
        handleErr_crashes fs defaults exc e2 he2]
  · intro hok
    rw [runCheck_absdirs_ok fs defaults expanduser abspath fsExists ei
      directory dirs habs, checkBody_ok fs defaults ei dirs hok]
  · intro exc hexc
    refine ⟨fun ls hls => ?_, fun e2 he2 => ?_⟩
    · rw [runReorder_absdirs_ok fs defaults expanduser abspath fsExists ei
        directory dirs wOk habs,
        reorderBody_error fs defaults ei dirs wOk exc hexc,
        handleErr_located fs defaults exc ls hls]
    · rw [runReorder_absdirs_ok fs defaults expanduser abspath fsExists ei
        directory dirs wOk habs,
        reorderBody_error fs defaults ei dirs wOk exc hexc,
        handleErr_crashes fs defaults exc e2 he2]
  · intro res hok
    rw [runReorder_absdirs_ok fs defaults expanduser abspath fsExists ei
      directory dirs wOk habs, reorderBody_ok fs defaults ei dirs wOk res hok]

/-- Claim C10 amended, witnessed: a check against an out-of-order manifest
at the default location is caught and handled (message, contents on stderr,
exit 1); a successful reorder of the same manifest ends normally. -/
theorem C10_witness :
    runCheck (fun p => if p == "/d.pth" then some ["/b", "/a"] else none)
        ["/d.pth"] id id (fun _ => true) none ["/a", "/b"] =
      ⟨["Error: " ++ errMsg (.outOfOrder "/a" "/b")],
        [String.intercalate "\n" ["/b", "/a"]], .exited 1, true⟩ := by
  have h := (C10_error_handling
      (fun p => if p == "/d.pth" then some ["/b", "/a"] else none)
      ["/d.pth"] id id (fun _ => true) none ["/a", "/b"] ["/a", "/b"] true
      (by rfl)).1 (.outOfOrder "/a" "/b") (by rfl)
  exact h.1 ["/b", "/a"] (by rfl)

end ReorderEditable
